import Mathlib

/-!
Verification of the all-time-high scanner (scanner.py, app.py).

Shallow embedding conventions:
* Prices are modelled as rationals (`ℚ`); the Python code computes with
  binary floats, but every claim under study is about order comparisons
  and structural behaviour, not about rounding of binary floats.
* A fetched history (the `Close` column of the yfinance DataFrame) is a
  `List (Option ℚ)`: `none` is a missing (NaN) cell that `dropna()`
  removes, `some v` a present close.
* The external fetch (`yf.Ticker(...).history(...)`) is an input to the
  embedded functions: a `check_ath` call receives `Except Unit Hist`,
  where `Except.error` stands for any exception raised while fetching
  (timeout, not found, transport fault); the source's `try/except`
  around the body maps `Except.error` to `none`.
* The thread pool's `as_completed` loop is modelled by folding over an
  arbitrary completion order, a permutation of the submitted list.
-/

set_option maxRecDepth 100000

/-- Close-price history as fetched: one optional close per row. -/
abbrev Hist := List (Option ℚ)

/-- An instrument record as produced by the symbol fetchers
(scanner.py `fetch_nse_symbols` / `fetch_bse_symbols`). -/
structure Stock where
  symbol : String
  name : String
  exchange : String
  series : String
deriving DecidableEq

/-- The dict returned by `check_ath` on a match (scanner.py 214-221). -/
structure MatchRecord where
  symbol : String
  name : String
  price : ℚ
  ath : ℚ
  exchange : String
  series : String
deriving DecidableEq

/-- Python's `round(x, 2)` (round half to even, at two decimals),
modelled over `ℚ`. -/
def round2 (x : ℚ) : ℚ :=
  let y := x * 100
  let f : ℤ := ⌊y⌋
  let r : ℚ := y - (f : ℚ)
  let n : ℤ :=
    if r < 1/2 then f
    else if 1/2 < r then f + 1
    else if f % 2 = 0 then f else f + 1
  (n : ℚ) / 100

/-- ATH_THRESHOLD = 0.98 (scanner.py 20). -/
def ATH_THRESHOLD : ℚ := 98/100

/-- The minimum history length the code requires (the literal `20` in
scanner.py 203; the spec calls it MIN_HISTORY). -/
def MIN_HISTORY : Nat := 20

/-- The `hist['Close'].dropna()` step (scanner.py 206): keep the
present cells, in order. -/
def dropna (hist : Hist) : List ℚ := hist.filterMap id

/-- Valid observations in the spec's sense: present and positive.
This is vocabulary for stating the claims; the source itself never
filters on positivity. -/
def validCloses (hist : Hist) : List ℚ :=
  (dropna hist).filter (fun x => decide (0 < x))

/-- Maximum of a list of closes (`closes.max()`, scanner.py 210);
the empty case is unreachable in the source and defaults to 0. -/
def listMax (l : List ℚ) : ℚ := l.foldl max (l.headD 0)

/-- Body of `check_ath` after a successful fetch (scanner.py 203-222),
with the threshold ratio explicit; the source fixes it to
`ATH_THRESHOLD`. Mirrors, in order: the `hist.empty or len(hist) < 20`
guard (emptiness implies length < 20), the `dropna`, the
`len(closes) == 0` guard, `closes.max()`, `closes[-1]`, and the
comparison `latest_close >= all_time_high * threshold`. -/
def check_ath_at (t : ℚ) (stock : Stock) (hist : Hist) : Option MatchRecord :=
  if hist.length < MIN_HISTORY then none
  else
    let closes := dropna hist
    if closes.isEmpty then none
    else
      let all_time_high := listMax closes
      let latest_close := closes.getLastD 0
      if all_time_high * t ≤ latest_close then
        some { symbol := stock.symbol
               name := stock.name
               price := round2 latest_close
               ath := round2 all_time_high
               exchange := stock.exchange
               series := stock.series }
      else none

/-- `check_ath`'s classification at the configured threshold. -/
def check_ath_hist (stock : Stock) (hist : Hist) : Option MatchRecord :=
  check_ath_at ATH_THRESHOLD stock hist

/-- `check_ath` (scanner.py 192-226) including its `try/except`: any
exception raised by the fetch yields `None`. -/
def check_ath (stock : Stock) (fetched : Except Unit Hist) : Option MatchRecord :=
  match fetched with
  | .ok hist => check_ath_hist stock hist
  | .error _ => none

/-- One iteration of the `as_completed` loop in `run_scan`
(scanner.py 239-243): increment `done`, append the result if any. -/
def run_scan_step (acc : Nat × List MatchRecord)
    (item : Stock × Except Unit Hist) : Nat × List MatchRecord :=
  match check_ath item.1 item.2 with
  | some r => (acc.1 + 1, acc.2 ++ [r])
  | none => (acc.1 + 1, acc.2)

/-- `run_scan` (scanner.py 230-253): fold the completion loop over the
order in which futures complete, starting from `done = 0` and an empty
`ath_stocks` list; returns `(done, ath_stocks)`. -/
def run_scan (order : List (Stock × Except Unit Hist)) : Nat × List MatchRecord :=
  order.foldl run_scan_step (0, [])

/-- Sort key of `save_results` (scanner.py 264):
`lambda x: x['exchange'] + x['symbol']`. -/
def sortKey (r : MatchRecord) : String := r.exchange ++ r.symbol

/-- Boolean comparison by the concatenated key. -/
def keyLe (a b : MatchRecord) : Bool := decide (sortKey a ≤ sortKey b)

/-- Stable insertion: `a` goes after every already-placed element that
compares `≤ a`. -/
def sIns {α : Type} (le : α → α → Bool) (a : α) : List α → List α
  | [] => [a]
  | b :: l => if le b a then b :: sIns le a l else a :: b :: l

/-- Stable sort, processing elements in arrival order. Python's
`sorted` is a stable sort; for a total transitive comparison every
stable sort computes the same list, so this insertion sort is an
extensionally faithful model of `sorted(..., key=...)`. -/
def sortedBy {α : Type} (le : α → α → Bool) (l : List α) : List α :=
  l.foldl (fun acc a => sIns le a acc) []

/-- The JSON payload written by `save_results` (scanner.py 258-265) and
read back by the web layer; `scan_date`/`scan_time` are `none` only in
the synthetic empty response of `api_results`. -/
structure ResultsPayload where
  scan_date : Option String
  scan_time : Option String
  total_scanned : Nat
  ath_count : Nat
  stocks : List MatchRecord
deriving DecidableEq

/-- `save_results` (scanner.py 256-268): assemble the payload, sorting
the matches by `exchange + symbol`. The timestamp strings are inputs
(the source formats `datetime.now(IST)`). -/
def save_results (now_date now_time : String)
    (ath_stocks : List MatchRecord) (total_scanned : Nat) : ResultsPayload :=
  { scan_date := some now_date
    scan_time := some now_time
    total_scanned := total_scanned
    ath_count := ath_stocks.length
    stocks := sortedBy keyLe ath_stocks }

/-- `main` (scanner.py 271-281): if the symbol list is empty, log an
error and return without scanning or saving (result `none`); otherwise
run the scan over some completion order and save the results. -/
def main_scan (now_date now_time : String)
    (symbols order : List (Stock × Except Unit Hist)) : Option ResultsPayload :=
  if symbols.isEmpty then none
  else some (save_results now_date now_time (run_scan order).2 symbols.length)

/-- The empty response of `api_results` when no results file exists
(app.py 45-51). -/
def empty_results : ResultsPayload :=
  { scan_date := none
    scan_time := none
    total_scanned := 0
    ath_count := 0
    stocks := [] }

/-- `api_results` (app.py 39-51): serve the saved file if present,
else the synthetic empty payload. -/
def api_results (data_file : Option ResultsPayload) : ResultsPayload :=
  match data_file with
  | some payload => payload
  | none => empty_results

/-- Process-wide scan bookkeeping for the single-flight model:
`running` is `scan_status["running"]` (app.py 23-30), `inFlight`
counts background-scan executions currently alive. -/
structure ScanStatus where
  running : Bool
  inFlight : Nat
deriving DecidableEq

/-- Effect of launching `run_scan_background` (app.py 92-101): its
first action sets `running = True`; one more scan is in flight. -/
def run_scan_background_start (s : ScanStatus) : ScanStatus :=
  { running := true, inFlight := s.inFlight + 1 }

/-- `api_trigger_scan` (app.py 60-68): reject with HTTP 409 while
`running`, else start a background scan and answer 200. -/
def api_trigger_scan (s : ScanStatus) : ScanStatus × Nat :=
  if s.running then (s, 409)
  else (run_scan_background_start s, 200)

/-- The scheduled job (app.py 152-165): `scheduler.add_job(
run_scan_background, ...)` invokes `run_scan_background` directly,
with no guard on `scan_status["running"]`. -/
def cron_fire (s : ScanStatus) : ScanStatus :=
  run_scan_background_start s

/-- The progress line emitted by `run_scan` every 50 completions
(scanner.py 250); `eta` is the preformatted seconds figure. -/
def progress_line (done total ath : Nat) (eta : String) : String :=
  "Progress: " ++ toString done ++ "/" ++ toString total ++ " (" ++
    toString (done * 100 / total) ++ "%) | ATH: " ++ toString ath ++
    " | ETA: " ++ eta ++ "s"

/-- Greedy `\d+`: parse a nonempty run of digits, returning the value
and the rest. -/
def parseNatDigits (cs : List Char) : Option (Nat × List Char) :=
  let ds := cs.takeWhile Char.isDigit
  if ds.isEmpty then none
  else some (ds.foldl (fun n c => n * 10 + (c.toNat - 48)) 0, cs.dropWhile Char.isDigit)

/-- Literal fragments of the regex in `run_scan_background`
(app.py 119): `Progress: (\d+)/(\d+).*ATH found: (\d+)`. -/
def litProgress : List Char := "Progress: ".data

/-- The anchor the regex demands after the two counters. -/
def litATHfound : List Char := "ATH found: ".data

/-- Match `ATH found: (\d+)` at some position of `cs` (the `.*` part of
the regex lets it sit anywhere); returns the captured number. -/
def matchATHfound (cs : List Char) : Option Nat :=
  match cs with
  | [] => none
  | c :: rest =>
    if litATHfound.isPrefixOf (c :: rest) then
      match parseNatDigits (List.drop litATHfound.length (c :: rest)) with
      | some (n, _) => some n
      | none => matchATHfound rest
    else matchATHfound rest

/-- Match the whole regex anchored at the start of `cs`. -/
def matchProgressAt (cs : List Char) : Option (Nat × Nat × Nat) :=
  if litProgress.isPrefixOf cs then
    match parseNatDigits (List.drop litProgress.length cs) with
    | some (d, rest1) =>
      match rest1 with
      | '/' :: rest2 =>
        match parseNatDigits rest2 with
        | some (t, rest3) =>
          match matchATHfound rest3 with
          | some f => some (d, t, f)
          | none => none
        | none => none
      | _ => none
    | none => none
  else none

/-- `re.search` for the progress regex: try every start position.
The source lines contain the anchors at most once, so leftmost search
agrees with the regex engine's result. -/
def re_search_progress (cs : List Char) : Option (Nat × Nat × Nat) :=
  match cs with
  | [] => none
  | c :: rest =>
    match matchProgressAt (c :: rest) with
    | some r => some r
    | none => re_search_progress rest

/-- Prefix of `cs` strictly before the first occurrence of `tag`
(the whole list when `tag` does not occur). -/
def beforeFirstTag (tag : List Char) : List Char → List Char
  | [] => []
  | c :: rest =>
    if tag.isPrefixOf (c :: rest) then []
    else c :: beforeFirstTag tag rest

/-- Python's `line.split(tag)[-1]`: the segment after the last
occurrence of `tag` (the whole string when `tag` does not occur). -/
def afterLastTag (tag cs : List Char) : List Char :=
  (beforeFirstTag tag.reverse cs.reverse).reverse

/-- Python's `str.strip()`. -/
def stripWs (cs : List Char) : List Char :=
  ((cs.dropWhile Char.isWhitespace).reverse.dropWhile Char.isWhitespace).reverse

/-- The observer-visible scan status dict (app.py 23-30), the fields
the stdout loop touches. -/
structure WebStatus where
  running : Bool
  progress : Nat
  total : Nat
  found : Nat
  message : String
deriving DecidableEq

/-- One iteration of the stdout loop of `run_scan_background`
(app.py 113-136): strip the line, skip it if empty, else try the
progress regex, else the `★ ATH:` branch, else the `DONE —` branch. -/
def handle_line (st : WebStatus) (rawLine : String) : WebStatus :=
  let line := stripWs rawLine.data
  if line.isEmpty then st
  else
    match re_search_progress line with
    | some (d, t, f) =>
      { st with progress := d, total := t, found := f
                message := "Scanning... " ++ toString d ++ "/" ++ toString t ++ " stocks" }
    | none =>
      if decide (List.IsInfix ("★ ATH:".data) line) then
        { st with found := st.found + 1
                  message := String.mk (stripWs (afterLastTag ("★ ATH:".data) line)) }
      else if decide (List.IsInfix ("DONE —".data) line) then
        { st with message := String.mk line }
      else st

/-- Modelled from the spec: the canonical order the spec prescribes
for the report — (exchangeTag, instrumentId) lexicographic ascending
(spec §4.5). Stated for comparison with the source's `sortKey`. -/
def specPairLe (a b : MatchRecord) : Bool :=
  decide (a.exchange < b.exchange ∨ (a.exchange = b.exchange ∧ a.symbol ≤ b.symbol))

/-- Sortedness under a boolean comparison. -/
def SortedB {α : Type} (le : α → α → Bool) (l : List α) : Prop :=
  List.Pairwise (fun a b => le a b = true) l

/-- Sample NSE instrument for concrete evaluations. -/
def s0 : Stock := { symbol := "X.NS", name := "X", exchange := "NSE", series := "EQ" }

/-- A history with 20 rows but a single valid close. -/
def histSparse : Hist := some 1 :: List.replicate 19 none

/-- A history of 20 rows whose closes are all zero. -/
def histZeros : Hist := List.replicate 20 (some 0)

/-- A history of 20 rows whose closes are all one. -/
def histOnes : Hist := List.replicate 20 (some 1)

/-- A match record with a one-letter exchange tag. -/
def rAA : MatchRecord :=
  { symbol := "BC", name := "n1", price := 1, ath := 1, exchange := "A", series := "EQ" }

/-- A match record with a two-letter exchange tag. -/
def rAB : MatchRecord :=
  { symbol := "B", name := "n2", price := 2, ath := 2, exchange := "AB", series := "EQ" }

/-- Two NSE match records with distinct symbols. -/
def rN1 : MatchRecord :=
  { symbol := "A.NS", name := "a", price := 1, ath := 1, exchange := "NSE", series := "EQ" }

/-- Second NSE match record. -/
def rN2 : MatchRecord :=
  { symbol := "B.NS", name := "b", price := 2, ath := 2, exchange := "NSE", series := "EQ" }

/-- Observer status as set at the start of a background scan
(app.py 95-101). -/
def st6 : WebStatus :=
  { running := true, progress := 0, total := 0, found := 0, message := "Starting scan..." }

/-! Helper lemmas about `listMax`. -/

theorem foldl_max_le (b : ℚ) :
    ∀ (l : List ℚ) (a : ℚ), List.foldl max a l ≤ b ↔ a ≤ b ∧ ∀ x ∈ l, x ≤ b := by
  intro l
  induction l with
  | nil => intro a; simp
  | cons c cs ih =>
    intro a
    simp only [List.foldl_cons, ih, max_le_iff, List.mem_cons]
    constructor
    · rintro ⟨⟨h1, h2⟩, h3⟩
      exact ⟨h1, fun x hx => hx.elim (fun e => e ▸ h2) (h3 x)⟩
    · rintro ⟨h1, h2⟩
      exact ⟨⟨h1, h2 c (Or.inl rfl)⟩, fun x hx => h2 x (Or.inr hx)⟩

theorem foldl_max_mem :
    ∀ (l : List ℚ) (a : ℚ), List.foldl max a l = a ∨ List.foldl max a l ∈ l := by
  intro l
  induction l with
  | nil => intro a; exact Or.inl rfl
  | cons c cs ih =>
    intro a
    rw [List.foldl_cons]
    rcases ih (max a c) with h | h
    · rcases max_choice a c with hm | hm
      · exact Or.inl (h.trans hm)
      · exact Or.inr (List.mem_cons.mpr (Or.inl (h.trans hm)))
    · exact Or.inr (List.mem_cons.mpr (Or.inr h))

theorem listMax_cons (c : ℚ) (cs : List ℚ) :
    listMax (c :: cs) = List.foldl max c cs := by
  simp [listMax, List.foldl_cons]

theorem listMax_mem {l : List ℚ} (h : l ≠ []) : listMax l ∈ l := by
  cases l with
  | nil => exact absurd rfl h
  | cons c cs =>
    rw [listMax_cons]
    rcases foldl_max_mem cs c with h' | h'
    · rw [h']; exact List.mem_cons_self c cs
    · exact List.mem_cons.mpr (Or.inr h')

theorem le_listMax {l : List ℚ} {x : ℚ} (hx : x ∈ l) : x ≤ listMax l := by
  cases l with
  | nil => simp at hx
  | cons c cs =>
    rw [listMax_cons]
    have h := (foldl_max_le (List.foldl max c cs) cs c).mp le_rfl
    rcases List.mem_cons.mp hx with h' | h'
    · exact h' ▸ h.1
    · exact h.2 x h'

theorem listMax_le {l : List ℚ} {b : ℚ} (h : l ≠ []) (hb : ∀ x ∈ l, x ≤ b) :
    listMax l ≤ b := by
  cases l with
  | nil => exact absurd rfl h
  | cons c cs =>
    rw [listMax_cons]
    exact (foldl_max_le b cs c).mpr ⟨hb c (List.mem_cons_self c cs),
      fun x hx => hb x (List.mem_cons.mpr (Or.inr hx))⟩

theorem listMax_filter_pos {l : List ℚ} (hpos : ∃ x ∈ l, 0 < x) :
    listMax (l.filter fun x => decide (0 < x)) = listMax l := by
  obtain ⟨x0, hx0mem, hx0⟩ := hpos
  have hlne : l ≠ [] := List.ne_nil_of_mem hx0mem
  have hM : 0 < listMax l := lt_of_lt_of_le hx0 (le_listMax hx0mem)
  have hMmem : listMax l ∈ l.filter fun x => decide (0 < x) :=
    List.mem_filter.mpr ⟨listMax_mem hlne, by simpa using hM⟩
  apply le_antisymm
  · exact listMax_le (List.ne_nil_of_mem hMmem)
      (fun y hy => le_listMax (List.mem_filter.mp hy).1)
  · exact le_listMax hMmem

theorem validCloses_sub_dropna {hist : Hist} {x : ℚ} (hx : x ∈ validCloses hist) :
    x ∈ dropna hist ∧ 0 < x := by
  have h := List.mem_filter.mp hx
  exact ⟨h.1, by simpa using h.2⟩

/-- C1: for every price series with at least MIN_HISTORY valid
(positive, non-null) closes, `check_ath` returns a match record
(`Match`) if and only if the latest close is at least
allTimeHigh * thresholdRatio with allTimeHigh = max of the valid
closes; in particular a series whose latest close equals the maximum
of its closes matches for every threshold ratio ≤ 1; the configured
`ATH_THRESHOLD` is 0.98 ≤ 1 and `check_ath_hist` is the classifier at
that configured ratio. -/
theorem check_ath_match_iff (t : ℚ) (stock : Stock) (hist : Hist)
    (h20 : MIN_HISTORY ≤ (validCloses hist).length) :
    (check_ath_at t stock hist ≠ none ↔
      listMax (validCloses hist) * t ≤ (dropna hist).getLastD 0)
    ∧ ((dropna hist).getLastD 0 = listMax (dropna hist) → t ≤ 1 →
        check_ath_at t stock hist ≠ none)
    ∧ check_ath_hist stock hist = check_ath_at ATH_THRESHOLD stock hist
    ∧ ATH_THRESHOLD ≤ 1 := by
  have hvne : validCloses hist ≠ [] := by
    intro he
    rw [he] at h20
    simp [MIN_HISTORY] at h20
  obtain ⟨v, hvmem⟩ := List.exists_mem_of_ne_nil _ hvne
  obtain ⟨hvd, hvpos⟩ := validCloses_sub_dropna hvmem
  have hpos : ∃ x ∈ dropna hist, 0 < x := ⟨v, hvd, hvpos⟩
  have hath : listMax (validCloses hist) = listMax (dropna hist) :=
    listMax_filter_pos hpos
  have hlen : ¬ hist.length < MIN_HISTORY := by
    have h1 : (validCloses hist).length ≤ (dropna hist).length :=
      List.length_filter_le _ _
    have h2 : (dropna hist).length ≤ hist.length :=
      List.length_filterMap_le _ _
    omega
  have hdne : dropna hist ≠ [] := List.ne_nil_of_mem hvd
  have hemp : ¬ ((dropna hist).isEmpty = true) := by
    simpa [List.isEmpty_iff] using hdne
  have h0 : 0 < listMax (dropna hist) := lt_of_lt_of_le hvpos (le_listMax hvd)
  have hunf : check_ath_at t stock hist =
      if listMax (dropna hist) * t ≤ (dropna hist).getLastD 0 then
        some { symbol := stock.symbol
               name := stock.name
               price := round2 ((dropna hist).getLastD 0)
               ath := round2 (listMax (dropna hist))
               exchange := stock.exchange
               series := stock.series }
      else none := by
    simp only [check_ath_at]
    rw [if_neg hlen, if_neg hemp]
  refine ⟨?_, ?_, rfl, by norm_num [ATH_THRESHOLD]⟩
  · rw [hunf, hath]
    by_cases hc : listMax (dropna hist) * t ≤ (dropna hist).getLastD 0
    · simp [hc]
    · simp [hc]
  · intro hlm ht
    rw [hunf]
    have hle : listMax (dropna hist) * t ≤ (dropna hist).getLastD 0 := by
      rw [hlm]
      calc listMax (dropna hist) * t ≤ listMax (dropna hist) * 1 :=
            mul_le_mul_of_nonneg_left ht (le_of_lt h0)
        _ = listMax (dropna hist) := mul_one _
    rw [if_pos hle]
    simp

/-- Witness for C1 at the series of twenty ones and the configured
threshold. -/
theorem check_ath_match_iff_witness :
    (MIN_HISTORY ≤ (validCloses histOnes).length)
    ∧ ((check_ath_at (98/100) s0 histOnes ≠ none ↔
          listMax (validCloses histOnes) * (98/100) ≤ (dropna histOnes).getLastD 0)
      ∧ ((dropna histOnes).getLastD 0 = listMax (dropna histOnes) → (98/100 : ℚ) ≤ 1 →
          check_ath_at (98/100) s0 histOnes ≠ none)
      ∧ check_ath_hist s0 histOnes = check_ath_at ATH_THRESHOLD s0 histOnes
      ∧ ATH_THRESHOLD ≤ 1) :=
  ⟨by with_unfolding_all decide,
   check_ath_match_iff (98/100) s0 histOnes (by with_unfolding_all decide)⟩

/-! Helper lemmas about `run_scan`. -/

theorem run_scan_foldl (l : List (Stock × Except Unit Hist)) :
    ∀ (n : Nat) (ms : List MatchRecord),
      l.foldl run_scan_step (n, ms) =
        (n + l.length, ms ++ l.filterMap fun p => check_ath p.1 p.2) := by
  induction l with
  | nil => intro n ms; simp
  | cons p ps ih =>
    intro n ms
    rw [List.foldl_cons]
    cases h : check_ath p.1 p.2 with
    | none =>
      have hs : run_scan_step (n, ms) p = (n + 1, ms) := by
        simp [run_scan_step, h]
      rw [hs, ih, List.filterMap_cons, h, List.length_cons]
      refine congrArg (fun k => (k, ms ++ _)) ?_
      omega
    | some r =>
      have hs : run_scan_step (n, ms) p = (n + 1, ms ++ [r]) := by
        simp [run_scan_step, h]
      rw [hs, ih, List.filterMap_cons, h]
      rw [List.append_assoc, List.singleton_append, List.length_cons]
      refine congrArg (fun k => (k, ms ++ r :: _)) ?_
      omega

theorem run_scan_eq (order : List (Stock × Except Unit Hist)) :
    run_scan order = (order.length, order.filterMap fun p => check_ath p.1 p.2) := by
  unfold run_scan
  rw [run_scan_foldl]
  simp

/-- C4: the per-instrument completion handling of the scan loop runs
exactly once per submitted instrument: whatever order (a permutation
of the submitted list, including the empty one) the futures complete
in, the `done` counter at the end of `run_scan` equals the number of
submitted instruments. -/
theorem run_scan_processes_all (symbols order : List (Stock × Except Unit Hist))
    (h : order.Perm symbols) : (run_scan order).1 = symbols.length := by
  rw [run_scan_eq]
  exact h.length_eq

/-- Witness for C4 on a two-element list completing in swapped order,
one of the fetches failing. -/
theorem run_scan_processes_all_witness :
    (List.Perm [(s0, (Except.error () : Except Unit Hist)), (s0, Except.ok histOnes)]
      [(s0, (Except.ok histOnes : Except Unit Hist)), (s0, Except.error ())])
    ∧ (run_scan [(s0, Except.error ()), (s0, Except.ok histOnes)]).1 = 2 :=
  ⟨List.Perm.swap _ _ _,
   run_scan_processes_all _ _ (List.Perm.swap _ _ _)⟩

/-- C8: a per-instrument fetch failure never aborts the batch: the
`done` counter still counts every instrument, the matches are exactly
the per-instrument classification results in completion order (so
every other instrument is processed to completion independently), and
an instrument whose fetch raised is classified `None`, hence excluded
from the matches. -/
theorem run_scan_failure_isolated :
    (∀ order : List (Stock × Except Unit Hist), (run_scan order).1 = order.length)
    ∧ (∀ order : List (Stock × Except Unit Hist),
        (run_scan order).2 = order.filterMap fun p => check_ath p.1 p.2)
    ∧ ∀ s : Stock, check_ath s (Except.error ()) = none := by
  refine ⟨?_, ?_, ?_⟩
  · intro order; rw [run_scan_eq]
  · intro order; rw [run_scan_eq]
  · intro s; rfl

/-! Helper lemmas about the stable sort. -/

theorem sIns_perm {α : Type} (le : α → α → Bool) (a : α) :
    ∀ l : List α, (sIns le a l).Perm (a :: l) := by
  intro l
  induction l with
  | nil => exact List.Perm.refl _
  | cons b t ih =>
    unfold sIns
    by_cases h : le b a = true
    · rw [if_pos h]
      exact (ih.cons b).trans (List.Perm.swap a b t)
    · rw [if_neg h]

theorem sortedBy_foldl_perm {α : Type} (le : α → α → Bool) :
    ∀ (l acc : List α), (l.foldl (fun acc a => sIns le a acc) acc).Perm (acc ++ l) := by
  intro l
  induction l with
  | nil => intro acc; simp
  | cons a t ih =>
    intro acc
    rw [List.foldl_cons]
    refine (ih (sIns le a acc)).trans ?_
    refine (List.Perm.append_right t ((sIns_perm le a acc))).trans ?_
    exact List.perm_middle.symm

theorem sortedBy_perm {α : Type} (le : α → α → Bool) (l : List α) :
    (sortedBy le l).Perm l := by
  unfold sortedBy
  simpa using sortedBy_foldl_perm le l []

theorem sIns_sorted {α : Type} {le : α → α → Bool}
    (htot : ∀ a b, le a b = true ∨ le b a = true)
    (htr : ∀ a b c, le a b = true → le b c = true → le a c = true)
    (a : α) : ∀ l : List α, SortedB le l → SortedB le (sIns le a l) := by
  intro l
  induction l with
  | nil => intro _; simp [sIns, SortedB]
  | cons b t ih =>
    intro hs
    unfold sIns
    by_cases h : le b a = true
    · rw [if_pos h]
      refine List.Pairwise.cons ?_ (ih (List.Pairwise.of_cons hs))
      intro x hx
      rcases List.mem_cons.mp ((sIns_perm le a t).mem_iff.mp hx) with hxa | hxt
      · rw [hxa]; exact h
      · exact List.rel_of_pairwise_cons hs hxt
    · rw [if_neg h]
      have hab : le a b = true := (htot a b).resolve_right h
      refine List.Pairwise.cons ?_ hs
      intro x hx
      rcases List.mem_cons.mp hx with hxb | hxt
      · rw [hxb]; exact hab
      · exact htr a b x hab (List.rel_of_pairwise_cons hs hxt)

theorem sortedBy_foldl_sorted {α : Type} {le : α → α → Bool}
    (htot : ∀ a b, le a b = true ∨ le b a = true)
    (htr : ∀ a b c, le a b = true → le b c = true → le a c = true) :
    ∀ (l acc : List α), SortedB le acc →
      SortedB le (l.foldl (fun acc a => sIns le a acc) acc) := by
  intro l
  induction l with
  | nil => intro acc h; exact h
  | cons a t ih =>
    intro acc h
    rw [List.foldl_cons]
    exact ih (sIns le a acc) (sIns_sorted htot htr a acc h)

theorem sortedBy_sorted {α : Type} {le : α → α → Bool}
    (htot : ∀ a b, le a b = true ∨ le b a = true)
    (htr : ∀ a b c, le a b = true → le b c = true → le a c = true)
    (l : List α) : SortedB le (sortedBy le l) :=
  sortedBy_foldl_sorted htot htr l [] (List.Pairwise.nil)

theorem sortedB_eq_of_perm {α : Type} {le : α → α → Bool} :
    ∀ (l₁ l₂ : List α), l₁.Perm l₂ → SortedB le l₁ → SortedB le l₂ →
      (∀ a ∈ l₁, ∀ b ∈ l₁, le a b = true → le b a = true → a = b) → l₁ = l₂ := by
  intro l₁
  induction l₁ with
  | nil =>
    intro l₂ hp _ _ _
    exact hp.nil_eq
  | cons a t₁ ih =>
    intro l₂ hp h₁ h₂ hanti
    cases l₂ with
    | nil => exact absurd hp.symm.nil_eq (by simp)
    | cons b t₂ =>
      have hab : a = b := by
        have hamem : a ∈ b :: t₂ := hp.mem_iff.mp (List.mem_cons_self a t₁)
        have hbmem : b ∈ a :: t₁ := hp.mem_iff.mpr (List.mem_cons_self b t₂)
        rcases List.mem_cons.mp hamem with h | ha2
        · exact h
        rcases List.mem_cons.mp hbmem with h' | hb1
        · exact h'.symm
        exact hanti a (List.mem_cons_self a t₁) b (List.mem_cons.mpr (Or.inr hb1))
          (List.rel_of_pairwise_cons h₁ hb1) (List.rel_of_pairwise_cons h₂ ha2)
      subst hab
      have hpt : t₁.Perm t₂ := hp.cons_inv
      have ht : t₁ = t₂ :=
        ih t₂ hpt (List.Pairwise.of_cons h₁) (List.Pairwise.of_cons h₂)
          (fun x hx y hy => hanti x (List.mem_cons.mpr (Or.inr hx))
            y (List.mem_cons.mpr (Or.inr hy)))
      rw [ht]

theorem keyLe_total : ∀ a b : MatchRecord, keyLe a b = true ∨ keyLe b a = true := by
  intro a b
  unfold keyLe
  rcases le_total (sortKey a) (sortKey b) with h | h
  · exact Or.inl (decide_eq_true h)
  · exact Or.inr (decide_eq_true h)

theorem keyLe_trans : ∀ a b c : MatchRecord,
    keyLe a b = true → keyLe b c = true → keyLe a c = true := by
  intro a b c hab hbc
  unfold keyLe at *
  exact decide_eq_true (le_trans (of_decide_eq_true hab) (of_decide_eq_true hbc))

/-- C2 counterexample: a series of 20 rows with a single valid
(positive, non-null) observation — far below MIN_HISTORY valid points
— is nevertheless classified as a match, because the source checks
`len(hist) < 20` on the raw rows before `dropna()`. -/
theorem check_ath_few_valid_closes_matches :
    (validCloses histSparse).length < MIN_HISTORY
    ∧ check_ath_hist s0 histSparse =
        some { symbol := "X.NS", name := "X", price := 1, ath := 1,
               exchange := "NSE", series := "EQ" } := by
  with_unfolding_all decide

/-- C2 amended: what the code guards on is the raw row count: every
series with fewer than MIN_HISTORY (20) total rows (before dropping
missing values) yields no match record, regardless of prices and for
every threshold ratio. -/
theorem check_ath_short_history_none (t : ℚ) (stock : Stock) (hist : Hist)
    (h : hist.length < MIN_HISTORY) : check_ath_at t stock hist = none := by
  unfold check_ath_at
  rw [if_pos h]

/-- Witness for the amended C2 at the empty series. -/
theorem check_ath_short_history_none_witness :
    ([] : Hist).length < MIN_HISTORY ∧ check_ath_at (98/100) s0 [] = none :=
  ⟨by decide, check_ath_short_history_none (98/100) s0 [] (by decide)⟩

/-- C9 counterexample: the classifier does not filter non-positive
values and does not treat a non-positive all-time high as not
evaluable: a 20-row series of all-zero closes has allTimeHigh ≤ 0 and
is classified as a match (0 ≥ 0 * 0.98). -/
theorem check_ath_zero_series_matches :
    listMax (dropna histZeros) ≤ 0
    ∧ check_ath_hist s0 histZeros =
        some { symbol := "X.NS", name := "X", price := 0, ath := 0,
               exchange := "NSE", series := "EQ" } := by
  with_unfolding_all decide

/-- C9 amended: the classifier drops only missing values — its result
depends on the series only through the raw row count and the sequence
of non-null closes — and non-positive closes do contribute: the
all-zero series (allTimeHigh = 0) yields a match record rather than
no record. -/
theorem check_ath_drops_only_missing :
    (∀ (t : ℚ) (stock : Stock) (h₁ h₂ : Hist),
      h₁.length = h₂.length → dropna h₁ = dropna h₂ →
        check_ath_at t stock h₁ = check_ath_at t stock h₂)
    ∧ check_ath_hist s0 histZeros ≠ none := by
  constructor
  · intro t stock h₁ h₂ hlen hdrop
    unfold check_ath_at
    rw [hlen, hdrop]
  · with_unfolding_all decide

/-- Witness for the amended C9: two 20-row series differing only in
where the missing cells sit classify identically. -/
theorem check_ath_drops_only_missing_witness :
    ((some 1 :: none :: histSparse).length = (none :: some 1 :: histSparse).length)
    ∧ (dropna (some 1 :: none :: histSparse) = dropna (none :: some 1 :: histSparse))
    ∧ check_ath_at (98/100) s0 (some 1 :: none :: histSparse) =
        check_ath_at (98/100) s0 (none :: some 1 :: histSparse) :=
  ⟨by decide, by with_unfolding_all decide,
   check_ath_drops_only_missing.1 (98/100) s0 _ _ (by decide)
     (by with_unfolding_all decide)⟩

/-- C10: before any scan has produced a results file, the results
endpoint returns the well-formed empty report: null scan date and
time, zero totals and an empty stock list. -/
theorem api_results_no_file_defaults :
    (api_results none).scan_date = none
    ∧ (api_results none).scan_time = none
    ∧ (api_results none).total_scanned = 0
    ∧ (api_results none).ath_count = 0
    ∧ (api_results none).stocks = [] :=
  ⟨rfl, rfl, rfl, rfl, rfl⟩

/-- C5 (code bug demonstration): the HTTP trigger rejects a scan
request with 409 while one is running and leaves the state unchanged,
but the scheduled cron path invokes the background scan with no guard:
fired while a scan is in flight, it starts a second concurrent scan. -/
theorem scan_trigger_guard_bypassed_by_cron :
    api_trigger_scan { running := true, inFlight := 1 } =
      ({ running := true, inFlight := 1 }, 409)
    ∧ (cron_fire { running := true, inFlight := 1 }).inFlight = 2
    ∧ api_trigger_scan { running := false, inFlight := 0 } =
        ({ running := true, inFlight := 1 }, 200) :=
  ⟨rfl, rfl, rfl⟩

/-- C7 counterexample: with zero instruments, `main` logs an error and
exits before scanning: no report at all is produced (`none`), not an
empty report. -/
theorem main_scan_empty_no_report : main_scan "d" "t" [] [] = none := rfl

/-- C7 amended: an empty instrument list produces no report (the scan
exits early), while every nonempty list produces a report whose
totalScanned is the instrument count, whose ath_count is the number
of matches, and whose stock list is the matches reordered. -/
theorem main_scan_report_behavior :
    (∀ (d t : String) (order : List (Stock × Except Unit Hist)),
        main_scan d t [] order = none)
    ∧ ∀ (d t : String) (p : Stock × Except Unit Hist)
        (ps order : List (Stock × Except Unit Hist)),
        ∃ rep, main_scan d t (p :: ps) order = some rep
          ∧ rep.total_scanned = (p :: ps).length
          ∧ rep.ath_count = (run_scan order).2.length
          ∧ rep.stocks.Perm (run_scan order).2 := by
  constructor
  · intro d t order; rfl
  · intro d t p ps order
    refine ⟨save_results d t (run_scan order).2 (p :: ps).length, rfl, rfl, rfl, ?_⟩
    exact sortedBy_perm keyLe (run_scan order).2

/-- C3 counterexample: sorting by the concatenated string
`exchange + symbol` is not sorting by the pair (exchangeTag,
instrumentId): with exchange tags of different lengths ("A" with
symbol "BC" against "AB" with symbol "B") the finalized report is not
in (exchangeTag, instrumentId) lexicographic ascending order. -/
theorem save_results_not_pair_sorted :
    (save_results "d" "t" [rAA, rAB] 2).stocks = [rAB, rAA]
    ∧ ¬ List.Pairwise (fun a b => specPairLe a b = true)
        (save_results "d" "t" [rAA, rAB] 2).stocks := by
  with_unfolding_all decide

/-- C3 amended: finalizing sorts the matches ascending by the
concatenated string key `exchangeTag ++ instrumentId` (for the
scanner's own tags NSE/BSE, which have equal length, this coincides
with the pair ordering): the emitted stock list is a permutation of
the accumulated matches, is pairwise ordered by the concatenated key,
and is identical across arrival orders provided distinct records have
distinct concatenated keys. -/
theorem save_results_sorted_by_concat_key :
    (∀ (d t : String) (n : Nat) (l : List MatchRecord),
        ((save_results d t l n).stocks).Perm l)
    ∧ (∀ (d t : String) (n : Nat) (l : List MatchRecord),
        List.Pairwise (fun a b => sortKey a ≤ sortKey b) (save_results d t l n).stocks)
    ∧ ∀ l₁ l₂ : List MatchRecord, l₁.Perm l₂ →
        (∀ a ∈ l₁, ∀ b ∈ l₁, sortKey a = sortKey b → a = b) →
        sortedBy keyLe l₁ = sortedBy keyLe l₂ := by
  refine ⟨?_, ?_, ?_⟩
  · intro d t n l
    exact sortedBy_perm keyLe l
  · intro d t n l
    exact (sortedBy_sorted keyLe_total keyLe_trans l).imp
      (fun hab => of_decide_eq_true hab)
  · intro l₁ l₂ hp hinj
    refine sortedB_eq_of_perm (sortedBy keyLe l₁) (sortedBy keyLe l₂)
      ((sortedBy_perm keyLe l₁).trans (hp.trans (sortedBy_perm keyLe l₂).symm))
      (sortedBy_sorted keyLe_total keyLe_trans l₁)
      (sortedBy_sorted keyLe_total keyLe_trans l₂) ?_
    intro a ha b hb hab hba
    exact hinj a ((sortedBy_perm keyLe l₁).mem_iff.mp ha)
      b ((sortedBy_perm keyLe l₁).mem_iff.mp hb)
      (le_antisymm (of_decide_eq_true hab) (of_decide_eq_true hba))

/-- Witness for the amended C3: the same two NSE records, arriving in
either order, finalize to the same sorted list. -/
theorem save_results_sorted_by_concat_key_witness :
    ([rN2, rN1].Perm [rN1, rN2])
    ∧ (∀ a ∈ [rN2, rN1], ∀ b ∈ [rN2, rN1], sortKey a = sortKey b → a = b)
    ∧ sortedBy keyLe [rN2, rN1] = sortedBy keyLe [rN1, rN2] :=
  ⟨List.Perm.swap _ _ _, by with_unfolding_all decide,
   save_results_sorted_by_concat_key.2.2 [rN2, rN1] [rN1, rN2]
     (List.Perm.swap _ _ _) (by with_unfolding_all decide)⟩

/-- C6 (code bug demonstration): the progress line the scanner emits
every 50 completions reads `... | ATH: n | ...`, but the web layer's
regex demands the literal `ATH found: `; the parser therefore returns
no match on the emitted line and the status dict keeps its stale
progress, total and found fields, while a line carrying the expected
anchor would parse. -/
theorem progress_regex_never_matches_scanner_line :
    progress_line 50 100 3 "12" = "Progress: 50/100 (50%) | ATH: 3 | ETA: 12s"
    ∧ re_search_progress (progress_line 50 100 3 "12").data = none
    ∧ handle_line st6 (progress_line 50 100 3 "12") = st6
    ∧ re_search_progress "Progress: 50/100 (50%) | ATH found: 3 | ETA: 12s".data =
        some (50, 100, 3) := by
  with_unfolding_all decide
